import Mathlib

/-!
Shallow embedding of the fancy debounce core
(quantum/debounce/fancy.c): per-cell three-state debounce machine,
row/column anti-ghost tables, elapsed-time source and allocation
lifecycle, together with proofs of the specified properties.

Machine integers are modelled as Nat with explicit reduction mod 256
(uint8) where an overflow could occur; row values are bit masks
(matrix_row_t), accessed through Nat.testBit.
-/

namespace Fancy

/-! ### Configuration constants (fancy.c lines 50-68, defaults) -/

def DEBOUNCE : Nat := 5

def DEBOUNCE_DOWN : Nat := DEBOUNCE

def DEBOUNCE_UP : Nat := DEBOUNCE

def DEBOUNCE_QUIESCE : Nat := 30

/-! ### Per-cell debounce state (fancy.c lines 162-174) -/

/-- The three per-cell phases: WAITING = 0, DEBOUNCING = 1, QUIESCING = 2. -/
inductive Phase where
  | WAITING
  | DEBOUNCING
  | QUIESCING
deriving DecidableEq, Repr

/-- One cell of the key_states array: a phase plus the 8-bit counter of
debounce time units still to elapse. -/
structure key_state_t where
  state : Phase
  remaining : Nat
deriving DecidableEq, Repr

instance : Inhabited key_state_t := ⟨⟨Phase.WAITING, 0⟩⟩

/-- The switch statement of the sweep (fancy.c lines 263-293) for one
cell: given the configured thresholds, the elapsed time, the delta bit
(cooked XOR raw for this column) and the raw bit, produce the new cell
state and whether the line cooked_row ^= col_mask executed (the accept
flip).  Assignments into the uint8 counter are reduced mod 256; the
guarded subtraction is Nat subtraction (see stepCellMod for the
wraparound comparison). -/
def stepCell (down up quiesce elapsed : Nat) (deltaBit rawBit : Bool)
    (p : key_state_t) : key_state_t × Bool :=
  match p.state with
  | Phase.WAITING =>
      if deltaBit then
        ({ state := Phase.DEBOUNCING,
           remaining := (if rawBit then down else up) % 256 }, false)
      else (p, false)
  | Phase.DEBOUNCING =>
      if !deltaBit then
        ({ p with state := Phase.WAITING }, false)
      else if p.remaining > elapsed then
        ({ p with remaining := p.remaining - elapsed }, false)
      else
        ({ state := Phase.QUIESCING, remaining := quiesce % 256 }, true)
  | Phase.QUIESCING =>
      if p.remaining > elapsed then
        ({ p with remaining := p.remaining - elapsed }, false)
      else
        ({ p with state := Phase.WAITING }, false)

/-- The same cell step with the subtraction performed as genuine 8-bit
wraparound subtraction (both operands uint8 values below 256), used to
state that the guarded subtraction of stepCell never wraps. -/
def stepCellMod (down up quiesce elapsed : Nat) (deltaBit rawBit : Bool)
    (p : key_state_t) : key_state_t × Bool :=
  match p.state with
  | Phase.WAITING =>
      if deltaBit then
        ({ state := Phase.DEBOUNCING,
           remaining := (if rawBit then down else up) % 256 }, false)
      else (p, false)
  | Phase.DEBOUNCING =>
      if !deltaBit then
        ({ p with state := Phase.WAITING }, false)
      else if p.remaining > elapsed then
        ({ p with remaining := (p.remaining + 256 - elapsed) % 256 }, false)
      else
        ({ state := Phase.QUIESCING, remaining := quiesce % 256 }, true)
  | Phase.QUIESCING =>
      if p.remaining > elapsed then
        ({ p with remaining := (p.remaining + 256 - elapsed) % 256 }, false)
      else
        ({ p with state := Phase.WAITING }, false)

/-! ### Anti-ghost tables (fancy.c lines 117-158) -/

/-- Inner column loop of ghost_compute (lines 146-151): walk the bits of
one raw row, incrementing the uint8 per-column down counts. The list has
one entry per column (MATRIX_COLS entries). -/
def ghost_add_row (row : Nat) : List Nat → List Nat
  | [] => []
  | d :: rest =>
      (if row % 2 = 1 then (d + 1) % 256 else d) :: ghost_add_row (row / 2) rest

/-- Row loop of ghost_compute (lines 139-153): returns the
multiple_in_row table for the processed rows and the final down_in_col
table.  A zero row stores 0 and skips the column accumulation. -/
def ghost_compute_go : List Nat → List Nat → List Nat × List Nat
  | [], dcol => ([], dcol)
  | row :: rest, dcol =>
      if row = 0 then
        let md := ghost_compute_go rest dcol
        (0 :: md.1, md.2)
      else
        let multiple : Nat := if row &&& (row - 1) ≠ 0 then 1 else 0
        let md := ghost_compute_go rest (ghost_add_row row dcol)
        (multiple :: md.1, md.2)

/-- ghost_compute (fancy.c lines 132-154): zero the MATRIX_COLS
down_in_col counters, then process every raw row. -/
def ghost_compute (raw : List Nat) (cols : Nat) : List Nat × List Nat :=
  ghost_compute_go raw (List.replicate cols 0)

/-- multiple_in_row_and_col (fancy.c lines 156-158): the ambiguity
query, reading the stored tables. -/
def multiple_in_row_and_col (mrow dcol : List Nat) (r c : Nat) : Bool :=
  decide (mrow.getD r 0 ≠ 0) && decide (dcol.getD c 0 > 1)

/-! ### The sweep (fancy.c lines 243-300) -/

/-- Column loop of the sweep (lines 256-294) over one row: col is the
current column index (col_mask = 1 <<< col), cooked_row is threaded
through because the accept branch mutates it in place, and the list
holds the key_states entries of the row from the current column on.  An
ambiguous cell is skipped entirely. -/
def stepCols (down up quiesce elapsed : Nat) (amb : Nat → Bool)
    (delta raw_row : Nat) : Nat → Nat → List key_state_t → Nat × List key_state_t
  | _, cooked_row, [] => (cooked_row, [])
  | col, cooked_row, p :: rest =>
      if amb col then
        let res := stepCols down up quiesce elapsed amb delta raw_row
          (col + 1) cooked_row rest
        (res.1, p :: res.2)
      else
        let pr := stepCell down up quiesce elapsed (delta.testBit col)
          (raw_row.testBit col) p
        let cooked_row2 := if pr.2 then cooked_row ^^^ (1 <<< col) else cooked_row
        let res := stepCols down up quiesce elapsed amb delta raw_row
          (col + 1) cooked_row2 rest
        (res.1, pr.1 :: res.2)

/-- Row loop of the sweep (lines 251-296): r is the current row index;
delta is computed once per row from the original cooked row.  Returns
the new cooked grid and the new key_states. -/
def stepRows (down up quiesce elapsed : Nat) (mrow dcol : List Nat) :
    Nat → List Nat → List Nat → List (List key_state_t) →
    List Nat × List (List key_state_t)
  | _, [], _, _ => ([], [])
  | _, _ :: _, [], _ => ([], [])
  | _, _ :: _, _ :: _, [] => ([], [])
  | r, raw_row :: raws, cooked_row :: cookeds, ps :: pss =>
      let delta := cooked_row ^^^ raw_row
      let rowRes := stepCols down up quiesce elapsed
        (fun c => multiple_in_row_and_col mrow dcol r c) delta raw_row 0 cooked_row ps
      let rest := stepRows down up quiesce elapsed mrow dcol (r + 1) raws cookeds pss
      (rowRes.1 :: rest.1, rowRes.2 :: rest.2)

/-- The module state owned by the debounce core: the two ghost tables
(multiple_in_row heap-allocated per num_rows, down_in_col a static
MATRIX_COLS array) and the per-cell key_states array, kept here as one
row-list per matrix row. -/
structure DebounceState where
  multiple_in_row : List Nat
  down_in_col : List Nat
  key_states : List (List key_state_t)
deriving DecidableEq, Repr

/-- debounce (fancy.c lines 243-300), with the elapsed time passed in
explicitly (get_elapsed is modelled separately): recompute the ghost
tables when changed, then sweep every cell.  Returns the new cooked grid
and the new module state. -/
def debounce (down up quiesce cols elapsed : Nat) (st : DebounceState)
    (raw cooked : List Nat) (changed : Bool) : List Nat × DebounceState :=
  let tabs := if changed then ghost_compute raw cols
              else (st.multiple_in_row, st.down_in_col)
  let swept := stepRows down up quiesce elapsed tabs.1 tabs.2 0 raw cooked st.key_states
  (swept.1,
   { multiple_in_row := tabs.1, down_in_col := tabs.2, key_states := swept.2 })

/-- debounce_init (fancy.c lines 177-189): multiple_in_row is calloc
zeroed, key_states is calloc zeroed and then every state set to WAITING;
the static down_in_col array is left holding whatever it held before. -/
def debounce_init (num_rows cols : Nat) (old_down_in_col : List Nat) :
    DebounceState :=
  { multiple_in_row := List.replicate num_rows 0,
    down_in_col := old_down_in_col,
    key_states :=
      List.replicate num_rows
        (List.replicate cols { state := Phase.WAITING, remaining := 0 }) }

/-! ### Elapsed-time source, time-based policy (fancy.c lines 89-113) -/

/-- Timer state of the time-based policy: the bootstrap flag and the
last recorded fast-timer value. -/
structure TimerState where
  last_time_initialized : Bool
  last_time : Nat
deriving DecidableEq, Repr

/-- Modelled from the spec: TIMER_DIFF_FAST from timer.h, which is not
under src/ — the wraparound-safe difference between two fast-timer
values, here on 16-bit timestamps. -/
def TIMER_DIFF_FAST (now last : Nat) : Nat :=
  (now % 2 ^ 16 + 2 ^ 16 - last % 2 ^ 16) % 2 ^ 16

/-- get_elapsed (fancy.c lines 100-113): first call after
initialization returns 1 and records the timestamp; later calls return
the wraparound-safe difference saturated to 255.  The argument now is
the value timer_read_fast() would return. -/
def get_elapsed (now : Nat) (ts : TimerState) : Nat × TimerState :=
  if !ts.last_time_initialized then
    (1, { last_time_initialized := true, last_time := now % 2 ^ 16 })
  else
    let elapsed_time := TIMER_DIFF_FAST now ts.last_time
    ((if elapsed_time > 255 then 255 else elapsed_time),
     { last_time_initialized := true, last_time := now % 2 ^ 16 })

/-- Timer plus debounce module state, for driving whole scan cycles. -/
structure FullState where
  timer : TimerState
  deb : DebounceState
deriving DecidableEq, Repr

/-- One full call of debounce under the time-based policy: read the
elapsed time (truncated into the uint8 local, lossless since it is at
most 255) and run the sweep. -/
def debounce_with_timer (down up quiesce cols now : Nat) (fs : FullState)
    (raw cooked : List Nat) (changed : Bool) : List Nat × FullState :=
  let e := get_elapsed now fs.timer
  let d := debounce down up quiesce cols (e.1 % 256) fs.deb raw cooked changed
  (d.1, { timer := e.2, deb := d.2 })

/-- Fresh timer state as produced by time_init (fancy.c line 92-94). -/
def time_init : TimerState := { last_time_initialized := false, last_time := 0 }

/-- Iterated debounce calls with changed = false and the raw grid held
fixed, one call per entry of the elapsed-time list. -/
def debounceIter (down up quiesce cols : Nat) (raw : List Nat) :
    List Nat → List Nat → DebounceState → List Nat × DebounceState
  | [], cooked, st => (cooked, st)
  | e :: es, cooked, st =>
      let d := debounce down up quiesce cols e st raw cooked false
      debounceIter down up quiesce cols raw es d.1 d.2

/-! ### Allocation lifecycle (fancy.c lines 124-130 and 191-197) -/

/-- The observable condition of a pointer variable owned by the core:
NULL, pointing at a live allocation, or left pointing at memory already
handed to free (dangling). -/
inductive Ptr where
  | null
  | alive
  | dangling
deriving DecidableEq, Repr

/-- The effect of passing a pointer variable to free: free(NULL) is a
no-op, freeing a live allocation releases it (the variable now
dangles), and freeing an already-freed pointer is a double free. -/
def free_call : Ptr → Except String Ptr
  | Ptr.null => Except.ok Ptr.null
  | Ptr.alive => Except.ok Ptr.dangling
  | Ptr.dangling => Except.error "double free"

/-- The two heap allocations owned by the core: the key_states array
and the multiple_in_row ghost table. -/
structure AllocState where
  key_states : Ptr
  multiple_in_row : Ptr
deriving DecidableEq, Repr

/-- Allocation state right after debounce_init: both callocs live. -/
def alloc_after_init : AllocState :=
  { key_states := Ptr.alive, multiple_in_row := Ptr.alive }

/-- debounce_free (fancy.c lines 191-197): free(key_states) then
key_states = NULL, then ghost_free() which is free(multiple_in_row)
without resetting the variable (fancy.c lines 128-130). -/
def debounce_free (st : AllocState) : Except String AllocState := do
  let _ ← free_call st.key_states
  let m ← free_call st.multiple_in_row
  Except.ok { key_states := Ptr.null, multiple_in_row := m }

/-! ### Specification-side helpers -/

/-- Number of set bits of a Nat (the intended meaning of the
row-has-multiple-keys test). -/
def popcount : Nat → Nat
  | 0 => 0
  | n + 1 => (n + 1) % 2 + popcount ((n + 1) / 2)
decreasing_by exact Nat.div_lt_self (Nat.succ_pos n) (by omega)

/-- Number of rows of the grid whose bit c is set. -/
def countDownInCol (raw : List Nat) (c : Nat) : Nat :=
  (raw.filter (fun row => row.testBit c)).length

/-- The effect of the sweep on a single cell, stated pointwise: an
ambiguous cell is untouched, any other cell moves by stepCell.  The
Bool is whether the cooked bit of the cell flips. -/
def cellResult (down up quiesce elapsed : Nat) (amb : Nat → Bool)
    (delta raw_row : Nat) (c : Nat) (p : key_state_t) : key_state_t × Bool :=
  if amb c then (p, false)
  else stepCell down up quiesce elapsed (delta.testBit c) (raw_row.testBit c) p

/-- Pointwise new key states of one row, starting at column col. -/
def cellsAfter (down up quiesce elapsed : Nat) (amb : Nat → Bool)
    (delta raw_row : Nat) : Nat → List key_state_t → List key_state_t
  | _, [] => []
  | col, p :: rest =>
      (cellResult down up quiesce elapsed amb delta raw_row col p).1 ::
        cellsAfter down up quiesce elapsed amb delta raw_row (col + 1) rest

/-- Mask of the cooked bits flipped by one row of the sweep, starting
at column col. -/
def flipMask (down up quiesce elapsed : Nat) (amb : Nat → Bool)
    (delta raw_row : Nat) : Nat → List key_state_t → Nat
  | _, [] => 0
  | col, p :: rest =>
      (if (cellResult down up quiesce elapsed amb delta raw_row col p).2
       then 1 <<< col else 0) ^^^
        flipMask down up quiesce elapsed amb delta raw_row (col + 1) rest

/-! ### Pointwise description of the sweep -/

theorem stepCols_eq (down up quiesce elapsed : Nat) (amb : Nat → Bool)
    (delta raw_row : Nat) :
    ∀ (ps : List key_state_t) (col cooked_row : Nat),
      stepCols down up quiesce elapsed amb delta raw_row col cooked_row ps =
        (cooked_row ^^^ flipMask down up quiesce elapsed amb delta raw_row col ps,
         cellsAfter down up quiesce elapsed amb delta raw_row col ps) := by
  intro ps
  induction ps with
  | nil =>
      intro col cooked_row
      simp [stepCols, flipMask, cellsAfter]
  | cons p rest ih =>
      intro col cooked_row
      by_cases h : amb col
      · simp only [stepCols, flipMask, cellsAfter, cellResult, h, if_true, ih]
        simp
      · simp only [stepCols, flipMask, cellsAfter, cellResult, h, if_false, ih]
        by_cases hf : (stepCell down up quiesce elapsed (delta.testBit col)
            (raw_row.testBit col) p).2
        · simp [hf, Nat.xor_assoc]
        · simp [hf]

theorem flipMask_testBit_lt (down up quiesce elapsed : Nat) (amb : Nat → Bool)
    (delta raw_row : Nat) :
    ∀ (ps : List key_state_t) (col j : Nat), j < col →
      (flipMask down up quiesce elapsed amb delta raw_row col ps).testBit j = false := by
  intro ps
  induction ps with
  | nil =>
      intro col j _
      simp [flipMask]
  | cons p rest ih =>
      intro col j hj
      have htail := ih (col + 1) j (Nat.lt_succ_of_lt hj)
      simp only [flipMask, Nat.testBit_xor, htail]
      by_cases hf : (cellResult down up quiesce elapsed amb delta raw_row col p).2
      · have : (1 <<< col).testBit j = false := by
          rw [Nat.one_shiftLeft]
          exact Nat.testBit_two_pow_of_ne (Nat.ne_of_gt hj)
        simp [hf, this]
      · simp [hf]

theorem flipMask_testBit (down up quiesce elapsed : Nat) (amb : Nat → Bool)
    (delta raw_row : Nat) :
    ∀ (ps : List key_state_t) (col i : Nat), i < ps.length →
      (flipMask down up quiesce elapsed amb delta raw_row col ps).testBit (col + i) =
        (cellResult down up quiesce elapsed amb delta raw_row (col + i)
          (ps.getD i default)).2 := by
  intro ps
  induction ps with
  | nil =>
      intro col i hi
      simp at hi
  | cons p rest ih =>
      intro col i hi
      cases i with
      | zero =>
          have htail := flipMask_testBit_lt down up quiesce elapsed amb delta raw_row
            rest (col + 1) col (Nat.lt_succ_self col)
          simp only [flipMask, Nat.testBit_xor, htail, Nat.add_zero, List.getD]
          by_cases hf : (cellResult down up quiesce elapsed amb delta raw_row col p).2
          · have : (1 <<< col).testBit col = true := by
              rw [Nat.one_shiftLeft]
              exact Nat.testBit_two_pow_self
            simp [hf, this]
          · simp [hf]
      | succ i =>
          have hi' : i < rest.length := by
            simpa using Nat.lt_of_succ_lt_succ hi
          have htail := ih (col + 1) i hi'
          have harith : col + (i + 1) = (col + 1) + i := by omega
          have hhead : (if (cellResult down up quiesce elapsed amb delta raw_row col p).2
              then 1 <<< col else 0).testBit (col + 1 + i) = false := by
            by_cases hf : (cellResult down up quiesce elapsed amb delta raw_row col p).2
            · have : (1 <<< col).testBit (col + 1 + i) = false := by
                rw [Nat.one_shiftLeft]
                exact Nat.testBit_two_pow_of_ne (by omega)
              simp [hf, this]
            · simp [hf]
          simp only [flipMask, Nat.testBit_xor, hhead, harith, htail]
          simp [List.getD]

theorem cellsAfter_length (down up quiesce elapsed : Nat) (amb : Nat → Bool)
    (delta raw_row : Nat) :
    ∀ (ps : List key_state_t) (col : Nat),
      (cellsAfter down up quiesce elapsed amb delta raw_row col ps).length =
        ps.length := by
  intro ps
  induction ps with
  | nil => intro col; simp [cellsAfter]
  | cons p rest ih => intro col; simp [cellsAfter, ih]

theorem cellsAfter_getD (down up quiesce elapsed : Nat) (amb : Nat → Bool)
    (delta raw_row : Nat) :
    ∀ (ps : List key_state_t) (col i : Nat), i < ps.length →
      (cellsAfter down up quiesce elapsed amb delta raw_row col ps).getD i default =
        (cellResult down up quiesce elapsed amb delta raw_row (col + i)
          (ps.getD i default)).1 := by
  intro ps
  induction ps with
  | nil =>
      intro col i hi
      simp at hi
  | cons p rest ih =>
      intro col i hi
      cases i with
      | zero => simp [cellsAfter, List.getD]
      | succ i =>
          have hi' : i < rest.length := by
            simpa using Nat.lt_of_succ_lt_succ hi
          have harith : col + (i + 1) = (col + 1) + i := by omega
          simp only [cellsAfter, List.getD_cons_succ, harith]
          exact ih (col + 1) i hi'

theorem stepRows_getD (down up quiesce elapsed : Nat) (mrow dcol : List Nat) :
    ∀ (raws cookeds : List Nat) (pss : List (List key_state_t)) (r0 i : Nat),
      i < raws.length → cookeds.length = raws.length → pss.length = raws.length →
      (stepRows down up quiesce elapsed mrow dcol r0 raws cookeds pss).1.getD i 0 =
        (stepCols down up quiesce elapsed
          (fun c => multiple_in_row_and_col mrow dcol (r0 + i) c)
          (cookeds.getD i 0 ^^^ raws.getD i 0) (raws.getD i 0) 0
          (cookeds.getD i 0) (pss.getD i [])).1 ∧
      (stepRows down up quiesce elapsed mrow dcol r0 raws cookeds pss).2.getD i [] =
        (stepCols down up quiesce elapsed
          (fun c => multiple_in_row_and_col mrow dcol (r0 + i) c)
          (cookeds.getD i 0 ^^^ raws.getD i 0) (raws.getD i 0) 0
          (cookeds.getD i 0) (pss.getD i [])).2 := by
  intro raws
  induction raws with
  | nil =>
      intro cookeds pss r0 i hi _ _
      simp at hi
  | cons raw_row raws ih =>
      intro cookeds pss r0 i hi hcl hpl
      match cookeds, pss with
      | cooked_row :: cookeds, ps :: pss =>
        cases i with
        | zero =>
            simp [stepRows, List.getD]
        | succ i =>
            have hi' : i < raws.length := by simpa using Nat.lt_of_succ_lt_succ hi
            have hcl' : cookeds.length = raws.length := by simpa using hcl
            have hpl' : pss.length = raws.length := by simpa using hpl
            have := ih cookeds pss (r0 + 1) i hi' hcl' hpl'
            have harith : r0 + 1 + i = r0 + (i + 1) := by omega
            simpa [stepRows, List.getD, harith] using this

/-- The effect of a whole sweep on one in-range cell (r, c), for
arbitrary ghost tables in effect: an ambiguous cell keeps its key state
and its cooked bit; any other cell moves by stepCell, the cooked bit
xored with the accept flip. -/
theorem sweep_cell (down up quiesce elapsed : Nat) (mrow dcol : List Nat)
    (raws cookeds : List Nat) (pss : List (List key_state_t)) (r c : Nat)
    (hcl : cookeds.length = raws.length)
    (hkl : pss.length = raws.length)
    (hr : r < raws.length)
    (hc : c < (pss.getD r []).length) :
    (((stepRows down up quiesce elapsed mrow dcol 0 raws cookeds pss).2.getD
        r []).getD c default,
     ((stepRows down up quiesce elapsed mrow dcol 0 raws cookeds pss).1.getD
        r 0).testBit c) =
      (let p := (pss.getD r []).getD c default
       let deltaBit := (cookeds.getD r 0 ^^^ raws.getD r 0).testBit c
       let rawBit := (raws.getD r 0).testBit c
       if multiple_in_row_and_col mrow dcol r c then
         (p, (cookeds.getD r 0).testBit c)
       else
         ((stepCell down up quiesce elapsed deltaBit rawBit p).1,
          ((cookeds.getD r 0).testBit c).xor
            (stepCell down up quiesce elapsed deltaBit rawBit p).2)) := by
  have hrows := stepRows_getD down up quiesce elapsed mrow dcol
    raws cookeds pss 0 r hr hcl hkl
  have hcols := stepCols_eq down up quiesce elapsed
    (fun c => multiple_in_row_and_col mrow dcol (0 + r) c)
    (cookeds.getD r 0 ^^^ raws.getD r 0) (raws.getD r 0)
    (pss.getD r []) 0 (cookeds.getD r 0)
  have hks := cellsAfter_getD down up quiesce elapsed
    (fun c => multiple_in_row_and_col mrow dcol (0 + r) c)
    (cookeds.getD r 0 ^^^ raws.getD r 0) (raws.getD r 0)
    (pss.getD r []) 0 c hc
  have hfm := flipMask_testBit down up quiesce elapsed
    (fun c => multiple_in_row_and_col mrow dcol (0 + r) c)
    (cookeds.getD r 0 ^^^ raws.getD r 0) (raws.getD r 0)
    (pss.getD r []) 0 c hc
  rw [hrows.1, hrows.2, hcols]
  simp only [Nat.zero_add] at hfm hks
  simp only [Nat.zero_add, Nat.testBit_xor, hfm, hks, cellResult]
  by_cases hamb : multiple_in_row_and_col mrow dcol r c
  · simp [hamb]
  · simp [hamb]

/-- The effect of one debounce call on one in-range cell (r, c): an
ambiguous cell (per the tables in effect this cycle) keeps its key
state and its cooked bit; any other cell moves by stepCell, the cooked
bit xored with the accept flip. -/
theorem debounce_cell (down up quiesce cols elapsed : Nat) (st : DebounceState)
    (raw cooked : List Nat) (changed : Bool) (r c : Nat)
    (hcl : cooked.length = raw.length)
    (hkl : st.key_states.length = raw.length)
    (hr : r < raw.length)
    (hc : c < (st.key_states.getD r []).length) :
    (((debounce down up quiesce cols elapsed st raw cooked changed).2.key_states.getD
        r []).getD c default,
     ((debounce down up quiesce cols elapsed st raw cooked changed).1.getD r 0).testBit c) =
      (let tabs := if changed then ghost_compute raw cols
                   else (st.multiple_in_row, st.down_in_col)
       let p := (st.key_states.getD r []).getD c default
       let deltaBit := (cooked.getD r 0 ^^^ raw.getD r 0).testBit c
       let rawBit := (raw.getD r 0).testBit c
       if multiple_in_row_and_col tabs.1 tabs.2 r c then
         (p, (cooked.getD r 0).testBit c)
       else
         ((stepCell down up quiesce elapsed deltaBit rawBit p).1,
          ((cooked.getD r 0).testBit c).xor
            (stepCell down up quiesce elapsed deltaBit rawBit p).2)) := by
  exact sweep_cell down up quiesce elapsed
    (if changed then ghost_compute raw cols
     else (st.multiple_in_row, st.down_in_col)).1
    (if changed then ghost_compute raw cols
     else (st.multiple_in_row, st.down_in_col)).2
    raw cooked st.key_states r c hcl hkl hr hc

/-! ### Counting set bits: the row-has-multiple-keys test -/

theorem popcount_eq (n : Nat) : popcount n = n % 2 + popcount (n / 2) := by
  cases n with
  | zero => simp [popcount]
  | succ n => simp only [popcount]

theorem popcount_eq_zero_iff : ∀ n : Nat, popcount n = 0 ↔ n = 0 := by
  intro n
  induction n using Nat.strong_induction_on with
  | _ n ih =>
    cases n with
    | zero => simp [popcount]
    | succ n =>
        rw [popcount_eq]
        constructor
        · intro h
          have h1 : (n + 1) % 2 = 0 := by omega
          have h2 : popcount ((n + 1) / 2) = 0 := by omega
          have h3 : (n + 1) / 2 = 0 :=
            (ih ((n + 1) / 2) (Nat.div_lt_self (Nat.succ_pos n) (by omega))).mp h2
          omega
        · intro h
          exact absurd h (Nat.succ_ne_zero n)

theorem testBit_two_mul_zero (m : Nat) : (2 * m).testBit 0 = false := by
  have h : 2 * m % 2 = 0 := by omega
  simp [Nat.testBit_zero, h]

theorem testBit_two_mul_succ (m i : Nat) : (2 * m).testBit (i + 1) = m.testBit i := by
  rw [Nat.testBit_succ]
  congr 1
  omega

theorem testBit_two_mul_add_one_zero (m : Nat) : (2 * m + 1).testBit 0 = true := by
  have h : (2 * m + 1) % 2 = 1 := by omega
  simp [Nat.testBit_zero, h]

theorem testBit_two_mul_add_one_succ (m i : Nat) :
    (2 * m + 1).testBit (i + 1) = m.testBit i := by
  rw [Nat.testBit_succ]
  congr 1
  omega

theorem odd_land_self_sub_one (m : Nat) : (2 * m + 1) &&& (2 * m) = 2 * m := by
  apply Nat.eq_of_testBit_eq
  intro i
  cases i with
  | zero =>
      simp [Nat.testBit_and, testBit_two_mul_zero, testBit_two_mul_add_one_zero]
  | succ i =>
      simp [Nat.testBit_and, testBit_two_mul_succ, testBit_two_mul_add_one_succ]

theorem even_land_self_sub_one (m : Nat) (hm : 0 < m) :
    (2 * m) &&& (2 * m - 1) = 2 * (m &&& (m - 1)) := by
  obtain ⟨k, rfl⟩ : ∃ k, m = k + 1 := ⟨m - 1, by omega⟩
  have h1 : 2 * (k + 1) - 1 = 2 * k + 1 := by omega
  rw [h1]
  apply Nat.eq_of_testBit_eq
  intro i
  cases i with
  | zero =>
      simp [Nat.testBit_and, testBit_two_mul_zero]
  | succ i =>
      have h2 : (k + 1) - 1 = k := by omega
      simp [Nat.testBit_and, testBit_two_mul_succ, testBit_two_mul_add_one_succ, h2]

/-- The bit trick of ghost_compute: value AND (value - 1) is nonzero
exactly when the value has at least two set bits. -/
theorem land_pred_ne_zero_iff : ∀ n : Nat, n &&& (n - 1) ≠ 0 ↔ 2 ≤ popcount n := by
  intro n
  induction n using Nat.strong_induction_on with
  | _ n ih =>
    rcases Nat.eq_zero_or_pos n with h0 | h0
    · subst h0
      simp [popcount]
    rcases Nat.even_or_odd n with he | ho
    · obtain ⟨m, rfl⟩ : ∃ m, n = 2 * m := by
        obtain ⟨m, hm⟩ := he
        exact ⟨m, by omega⟩
      have hm : 0 < m := by omega
      rw [even_land_self_sub_one m hm]
      have hpc : popcount (2 * m) = popcount m := by
        rw [popcount_eq]
        have h1 : 2 * m % 2 = 0 := by omega
        have h2 : 2 * m / 2 = m := by omega
        rw [h1, h2]
        omega
      rw [hpc]
      have := ih m (by omega)
      omega
    · obtain ⟨m, rfl⟩ : ∃ m, n = 2 * m + 1 := by
        obtain ⟨m, hm⟩ := ho
        exact ⟨m, by omega⟩
      have h1 : 2 * m + 1 - 1 = 2 * m := by omega
      rw [h1, odd_land_self_sub_one]
      have hpc : popcount (2 * m + 1) = 1 + popcount m := by
        rw [popcount_eq]
        have h2 : (2 * m + 1) % 2 = 1 := by omega
        have h3 : (2 * m + 1) / 2 = m := by omega
        rw [h2, h3]
      rw [hpc]
      have hz := popcount_eq_zero_iff m
      omega

/-! ### Ghost table characterization -/

theorem countDownInCol_nil (c : Nat) : countDownInCol [] c = 0 := rfl

theorem countDownInCol_cons (row : Nat) (rest : List Nat) (c : Nat) :
    countDownInCol (row :: rest) c =
      (if row.testBit c then 1 else 0) + countDownInCol rest c := by
  by_cases h : row.testBit c
  · simp [countDownInCol, List.filter, h]
    omega
  · simp [countDownInCol, List.filter, h]

theorem countDownInCol_le (raw : List Nat) (c : Nat) :
    countDownInCol raw c ≤ raw.length :=
  List.length_filter_le _ raw

theorem ghost_add_row_length (row : Nat) (dcol : List Nat) :
    (ghost_add_row row dcol).length = dcol.length := by
  induction dcol generalizing row with
  | nil => simp [ghost_add_row]
  | cons d rest ih => simp [ghost_add_row, ih]

theorem ghost_add_row_getD (row : Nat) (dcol : List Nat) :
    ∀ c, c < dcol.length →
      (ghost_add_row row dcol).getD c 0 =
        if row.testBit c then (dcol.getD c 0 + 1) % 256 else dcol.getD c 0 := by
  induction dcol generalizing row with
  | nil =>
      intro c hc
      simp at hc
  | cons d rest ih =>
      intro c hc
      cases c with
      | zero =>
          have : row.testBit 0 = decide (row % 2 = 1) := Nat.testBit_zero row
          by_cases h : row % 2 = 1 <;>
            simp [ghost_add_row, List.getD, this, h]
      | succ c =>
          have hc' : c < rest.length := by simpa using Nat.lt_of_succ_lt_succ hc
          have hbit : (row / 2).testBit c = row.testBit (c + 1) :=
            Nat.testBit_div_two row c
          simp only [ghost_add_row, List.getD_cons_succ]
          rw [ih (row / 2) c hc', hbit]

theorem ghost_compute_go_fst (raw : List Nat) :
    ∀ dcol, (ghost_compute_go raw dcol).1 =
      raw.map (fun row => if row &&& (row - 1) ≠ 0 then 1 else 0) := by
  induction raw with
  | nil => intro dcol; simp [ghost_compute_go]
  | cons row rest ih =>
      intro dcol
      by_cases h : row = 0
      · subst h
        simp [ghost_compute_go, ih]
      · simp [ghost_compute_go, h, ih]

theorem ghost_compute_go_snd_length (raw : List Nat) :
    ∀ dcol, (ghost_compute_go raw dcol).2.length = dcol.length := by
  induction raw with
  | nil => intro dcol; simp [ghost_compute_go]
  | cons row rest ih =>
      intro dcol
      by_cases h : row = 0
      · simp [ghost_compute_go, h, ih]
      · simp [ghost_compute_go, h, ih, ghost_add_row_length]

theorem ghost_compute_go_cons_zero (rest dcol : List Nat) :
    ghost_compute_go (0 :: rest) dcol =
      (0 :: (ghost_compute_go rest dcol).1, (ghost_compute_go rest dcol).2) := by
  simp [ghost_compute_go]

theorem ghost_compute_go_cons_ne (row : Nat) (rest dcol : List Nat) (h : row ≠ 0) :
    ghost_compute_go (row :: rest) dcol =
      ((if row &&& (row - 1) ≠ 0 then 1 else 0) ::
         (ghost_compute_go rest (ghost_add_row row dcol)).1,
       (ghost_compute_go rest (ghost_add_row row dcol)).2) := by
  simp [ghost_compute_go, h]

theorem ghost_compute_go_snd (raw : List Nat) :
    ∀ (dcol : List Nat) (c : Nat), c < dcol.length → dcol.getD c 0 < 256 →
      (ghost_compute_go raw dcol).2.getD c 0 =
        (dcol.getD c 0 + countDownInCol raw c) % 256 := by
  induction raw with
  | nil =>
      intro dcol c hc hv
      simp only [ghost_compute_go, countDownInCol_nil, Nat.add_zero]
      exact (Nat.mod_eq_of_lt hv).symm
  | cons row rest ih =>
      intro dcol c hc hv
      by_cases h : row = 0
      · subst h
        have hbit : (0 : Nat).testBit c = false := Nat.zero_testBit c
        rw [ghost_compute_go_cons_zero, ih dcol c hc hv, countDownInCol_cons, hbit]
        simp
      · have hc' : c < (ghost_add_row row dcol).length := by
          rw [ghost_add_row_length]; exact hc
        have hg := ghost_add_row_getD row dcol c hc
        have hv' : (ghost_add_row row dcol).getD c 0 < 256 := by
          rw [hg]
          by_cases hb : row.testBit c
          · rw [if_pos hb]
            exact Nat.mod_lt _ (by omega)
          · rw [if_neg hb]
            exact hv
        rw [ghost_compute_go_cons_ne row rest dcol h,
          ih (ghost_add_row row dcol) c hc' hv', hg, countDownInCol_cons]
        by_cases hb : row.testBit c
        · rw [if_pos hb, if_pos hb]
          omega
        · rw [if_neg hb, if_neg hb]
          omega

/-! ### Cell-level case lemmas -/

theorem getD_replicate_zero (n c : Nat) : (List.replicate n (0 : Nat)).getD c 0 = 0 := by
  rw [List.getD_eq_getElem?_getD, List.getElem?_replicate]
  split <;> rfl

/-- A cell whose delta bit is clear never flips its cooked bit. -/
theorem stepCell_noflip_of_delta_false (down up quiesce elapsed : Nat) (rb : Bool)
    (p : key_state_t) :
    (stepCell down up quiesce elapsed false rb p).2 = false := by
  obtain ⟨ps, prem⟩ := p
  cases ps <;> by_cases h : prem > elapsed <;> simp [stepCell, h]

/-- The three-state transition of one processed (non-ambiguous) cell,
as the claim states it: p and cb are the key state and the cooked bit
before the sweep, rb the raw bit, and p' and cb' the key state and
cooked bit after. -/
def followsMachine (down up quiesce elapsed : Nat) (p p' : key_state_t)
    (cb rb cb' : Bool) : Prop :=
  (p.state = Phase.WAITING →
     (rb ≠ cb →
        p' = { state := Phase.DEBOUNCING, remaining := if rb then down else up }
        ∧ cb' = cb)
     ∧ (rb = cb → p' = p ∧ cb' = cb))
  ∧ (p.state = Phase.DEBOUNCING →
     (rb = cb → p' = { state := Phase.WAITING, remaining := p.remaining } ∧ cb' = cb)
     ∧ (rb ≠ cb →
        (p.remaining > elapsed →
           p' = { state := Phase.DEBOUNCING, remaining := p.remaining - elapsed }
           ∧ cb' = cb)
        ∧ (p.remaining ≤ elapsed →
           p' = { state := Phase.QUIESCING, remaining := quiesce } ∧ cb' = rb)))
  ∧ (p.state = Phase.QUIESCING →
     (p.remaining > elapsed →
        p' = { state := Phase.QUIESCING, remaining := p.remaining - elapsed }
        ∧ cb' = cb)
     ∧ (p.remaining ≤ elapsed →
        p' = { state := Phase.WAITING, remaining := p.remaining } ∧ cb' = cb))

theorem stepCell_cases (down up quiesce elapsed : Nat) (cb rb : Bool)
    (p : key_state_t) (hd : down ≤ 255) (hu : up ≤ 255) (hq : quiesce ≤ 255) :
    followsMachine down up quiesce elapsed p
      (stepCell down up quiesce elapsed (cb.xor rb) rb p).1 cb rb
      (cb.xor (stepCell down up quiesce elapsed (cb.xor rb) rb p).2) := by
  obtain ⟨ps, prem⟩ := p
  have hd' : down % 256 = down := Nat.mod_eq_of_lt (by omega)
  have hu' : up % 256 = up := Nat.mod_eq_of_lt (by omega)
  have hq' : quiesce % 256 = quiesce := Nat.mod_eq_of_lt (by omega)
  cases ps <;> cases cb <;> cases rb <;>
    by_cases hgt : prem > elapsed <;>
      simp [followsMachine, stepCell, hd', hu', hq', hgt]

/-- The accept flip of one processed cell fires exactly in the
DEBOUNCING accept branch, and then the cooked bit becomes the raw bit
and the cell quiesces. -/
theorem stepCell_flip (down up quiesce elapsed : Nat) (cb rb : Bool)
    (p : key_state_t) :
    ((stepCell down up quiesce elapsed (cb.xor rb) rb p).2 = true ↔
      (p.state = Phase.DEBOUNCING ∧ rb ≠ cb ∧ p.remaining ≤ elapsed))
    ∧ ((stepCell down up quiesce elapsed (cb.xor rb) rb p).2 = true →
        cb.xor (stepCell down up quiesce elapsed (cb.xor rb) rb p).2 = rb
        ∧ (stepCell down up quiesce elapsed (cb.xor rb) rb p).1 =
            { state := Phase.QUIESCING, remaining := quiesce % 256 }) := by
  obtain ⟨ps, prem⟩ := p
  cases ps <;> cases cb <;> cases rb <;>
    by_cases hgt : prem > elapsed <;>
      simp [stepCell, hgt] <;> omega

/-! ### Claim theorems -/

/-- C2: after ghost_compute on a raw grid of num_rows rows (num_rows at
most 255, the uint8 argument), multiple_in_row r is nonzero exactly when
row r has at least two set bits, down_in_col c is the number of rows
whose bit c is set, and multiple_in_row_and_col r c holds exactly when
multiple_in_row r is nonzero and down_in_col c exceeds 1. -/
theorem ghost_compute_spec (raw : List Nat) (cols r c : Nat)
    (hlen : raw.length ≤ 255) (hr : r < raw.length) (hc : c < cols) :
    ((ghost_compute raw cols).1.getD r 0 ≠ 0 ↔ 2 ≤ popcount (raw.getD r 0))
    ∧ (ghost_compute raw cols).2.getD c 0 = countDownInCol raw c
    ∧ multiple_in_row_and_col (ghost_compute raw cols).1 (ghost_compute raw cols).2 r c =
        (decide ((ghost_compute raw cols).1.getD r 0 ≠ 0) &&
         decide ((ghost_compute raw cols).2.getD c 0 > 1)) := by
  refine ⟨?_, ?_, rfl⟩
  · rw [ghost_compute, ghost_compute_go_fst]
    have hget : (raw.map (fun row => if row &&& (row - 1) ≠ 0 then (1 : Nat) else 0)).getD
        r 0 = if raw.getD r 0 &&& (raw.getD r 0 - 1) ≠ 0 then 1 else 0 := by
      rw [List.getD_eq_getElem?_getD, List.getD_eq_getElem?_getD, List.getElem?_map,
        List.getElem?_eq_getElem hr]
      rfl
    rw [hget]
    by_cases hl : raw.getD r 0 &&& (raw.getD r 0 - 1) ≠ 0
    · rw [if_pos hl]
      constructor
      · intro _
        exact (land_pred_ne_zero_iff _).mp hl
      · intro _
        omega
    · rw [if_neg hl]
      constructor
      · intro h0
        exact absurd rfl h0
      · intro hpc
        exact absurd ((land_pred_ne_zero_iff _).mpr hpc) hl
  · have hc' : c < (List.replicate cols (0 : Nat)).length := by
      simpa using hc
    have hv : (List.replicate cols (0 : Nat)).getD c 0 < 256 := by
      rw [getD_replicate_zero]
      omega
    rw [ghost_compute, ghost_compute_go_snd raw (List.replicate cols 0) c hc' hv,
      getD_replicate_zero]
    have hle : countDownInCol raw c ≤ raw.length := countDownInCol_le raw c
    have : 0 + countDownInCol raw c < 256 := by omega
    simpa using Nat.mod_eq_of_lt this

/-- C2 witness: the theorem applied to the concrete grid with rows 3
and 1 (two keys in row 0, column 0 pressed in both rows). -/
theorem ghost_compute_spec_witness :
    ([3, 1] : List Nat).length ≤ 255 ∧ 0 < ([3, 1] : List Nat).length ∧ 0 < 4 ∧
    ((((ghost_compute [3, 1] 4).1.getD 0 0 ≠ 0 ↔
        2 ≤ popcount (([3, 1] : List Nat).getD 0 0))
      ∧ (ghost_compute [3, 1] 4).2.getD 0 0 = countDownInCol [3, 1] 0
      ∧ multiple_in_row_and_col (ghost_compute [3, 1] 4).1
          (ghost_compute [3, 1] 4).2 0 0 =
          (decide ((ghost_compute [3, 1] 4).1.getD 0 0 ≠ 0) &&
           decide ((ghost_compute [3, 1] 4).2.getD 0 0 > 1)))) :=
  ⟨by decide, by decide, by decide,
    ghost_compute_spec [3, 1] 4 0 0 (by decide) (by decide) (by decide)⟩

/-- C6: debounce_free does release both core-owned allocations, but it
is not safe to call again before the next debounce_init — ghost_free
leaves multiple_in_row dangling, so the second call double frees it
instead of leaving the released state unchanged without error. -/
theorem debounce_free_not_reentrant :
    debounce_free alloc_after_init =
      Except.ok { key_states := Ptr.null, multiple_in_row := Ptr.dangling }
    ∧ debounce_free { key_states := Ptr.null, multiple_in_row := Ptr.dangling } =
        Except.error "double free" :=
  ⟨rfl, rfl⟩

/-- C7: under the time-based policy, get_elapsed returns 1 on the first
call after initialization, and on later calls the wraparound-safe
difference saturated to 255; the returned value never exceeds 255. -/
theorem get_elapsed_spec (now : Nat) (ts : TimerState) :
    (get_elapsed now ts).1 ≤ 255
    ∧ (ts.last_time_initialized = false → (get_elapsed now ts).1 = 1)
    ∧ (ts.last_time_initialized = true →
        (get_elapsed now ts).1 = min 255 (TIMER_DIFF_FAST now ts.last_time)) := by
  obtain ⟨init, last⟩ := ts
  cases init
  · simp [get_elapsed]
  · simp only [get_elapsed, Bool.not_true, Bool.false_eq_true, if_false]
    by_cases h : TIMER_DIFF_FAST now last > 255
    · simp [h]
      omega
    · simp [h]
      omega

/-- C7 witness: a later call with a 200-unit gap and a first call. -/
theorem get_elapsed_spec_witness :
    ((get_elapsed 300 { last_time_initialized := true, last_time := 100 }).1 ≤ 255
    ∧ ((true : Bool) = false →
        (get_elapsed 300 { last_time_initialized := true, last_time := 100 }).1 = 1)
    ∧ ((true : Bool) = true →
        (get_elapsed 300 { last_time_initialized := true, last_time := 100 }).1 =
          min 255 (TIMER_DIFF_FAST 300 100))) :=
  get_elapsed_spec 300 { last_time_initialized := true, last_time := 100 }

/-- C8: with uint8-valued inputs, stepCell agrees with the version
whose subtraction is true 8-bit wraparound subtraction (the guard
remaining > elapsed keeps the subtraction from wrapping), and when
remaining equals elapsed the comparison fails and the transition fires
instead, in both the DEBOUNCING and the QUIESCING branch. -/
theorem stepCell_no_underflow (down up quiesce elapsed : Nat) (db rb : Bool)
    (p : key_state_t) (hrem : p.remaining ≤ 255) (helapsed : elapsed ≤ 255) :
    stepCellMod down up quiesce elapsed db rb p =
      stepCell down up quiesce elapsed db rb p
    ∧ (p.state = Phase.DEBOUNCING → db = true → p.remaining = elapsed →
        (stepCell down up quiesce elapsed db rb p).1.state = Phase.QUIESCING)
    ∧ (p.state = Phase.QUIESCING → p.remaining = elapsed →
        (stepCell down up quiesce elapsed db rb p).1.state = Phase.WAITING) := by
  obtain ⟨ps, prem⟩ := p
  simp only at hrem
  have hsub : prem > elapsed → (prem + 256 - elapsed) % 256 = prem - elapsed := by
    intro h
    omega
  cases ps <;> cases db <;> by_cases hgt : prem > elapsed <;>
    simp [stepCell, stepCellMod, hgt, hsub] <;> omega

/-- C8 witness: a DEBOUNCING cell with remaining equal to elapsed. -/
theorem stepCell_no_underflow_witness :
    ({ state := Phase.DEBOUNCING, remaining := 5 } : key_state_t).remaining ≤ 255
    ∧ (5 : Nat) ≤ 255
    ∧ (stepCellMod 5 5 30 5 true true { state := Phase.DEBOUNCING, remaining := 5 } =
        stepCell 5 5 30 5 true true { state := Phase.DEBOUNCING, remaining := 5 }
      ∧ (({ state := Phase.DEBOUNCING, remaining := 5 } : key_state_t).state =
            Phase.DEBOUNCING → (true : Bool) = true →
          ({ state := Phase.DEBOUNCING, remaining := 5 } : key_state_t).remaining = 5 →
          (stepCell 5 5 30 5 true true
            { state := Phase.DEBOUNCING, remaining := 5 }).1.state = Phase.QUIESCING)
      ∧ (({ state := Phase.DEBOUNCING, remaining := 5 } : key_state_t).state =
            Phase.QUIESCING →
          ({ state := Phase.DEBOUNCING, remaining := 5 } : key_state_t).remaining = 5 →
          (stepCell 5 5 30 5 true true
            { state := Phase.DEBOUNCING, remaining := 5 }).1.state = Phase.WAITING)) :=
  ⟨by decide, by decide,
    stepCell_no_underflow 5 5 30 5 true true
      { state := Phase.DEBOUNCING, remaining := 5 } (by decide) (by decide)⟩

/-- C9: right after debounce_init, multiple_in_row is all zeros (calloc),
so multiple_in_row_and_col is false at every cell whatever counts the
static down_in_col array still holds from before the init. -/
theorem init_no_ghost (num_rows cols : Nat) (dcol0 : List Nat) (r c : Nat) :
    (debounce_init num_rows cols dcol0).multiple_in_row = List.replicate num_rows 0
    ∧ multiple_in_row_and_col (debounce_init num_rows cols dcol0).multiple_in_row
        dcol0 r c = false := by
  refine ⟨rfl, ?_⟩
  simp [multiple_in_row_and_col, debounce_init, getD_replicate_zero]

/-! ### The OneKeyShort1 scenario (fancy_tests.cpp lines 30-39) -/

/-- Fresh module state: timer un-bootstrapped, 2 rows by 4 columns,
static down_in_col zero as at program start. -/
def oneKeyShort1_start : FullState :=
  { timer := time_init, deb := debounce_init 2 4 (List.replicate 4 0) }

/-- Call at t=0: cell (0,1) just pressed, so raw is row 0 = 2. -/
def oneKeyShort1_t0 : List Nat × FullState :=
  debounce_with_timer DEBOUNCE_DOWN DEBOUNCE_UP DEBOUNCE_QUIESCE 4 0
    oneKeyShort1_start [2, 0] [0, 0] true

/-- Call at t=5, nothing changed. -/
def oneKeyShort1_t5 : List Nat × FullState :=
  debounce_with_timer DEBOUNCE_DOWN DEBOUNCE_UP DEBOUNCE_QUIESCE 4 5
    oneKeyShort1_t0.2 [2, 0] oneKeyShort1_t0.1 false

/-- Call at t=40, nothing changed (runs out the quiesce period). -/
def oneKeyShort1_t40 : List Nat × FullState :=
  debounce_with_timer DEBOUNCE_DOWN DEBOUNCE_UP DEBOUNCE_QUIESCE 4 40
    oneKeyShort1_t5.2 [2, 0] oneKeyShort1_t5.1 false

/-- Call at t=57: cell (0,1) released. -/
def oneKeyShort1_t57 : List Nat × FullState :=
  debounce_with_timer DEBOUNCE_DOWN DEBOUNCE_UP DEBOUNCE_QUIESCE 4 57
    oneKeyShort1_t40.2 [0, 0] oneKeyShort1_t40.1 true

/-- Call at t=62, nothing changed. -/
def oneKeyShort1_t62 : List Nat × FullState :=
  debounce_with_timer DEBOUNCE_DOWN DEBOUNCE_UP DEBOUNCE_QUIESCE 4 62
    oneKeyShort1_t57.2 [0, 0] oneKeyShort1_t57.1 false

/-- C4: the OneKeyShort1 end-to-end scenario under the default
configuration (press/release threshold 5, quiesce 30, wall-clock time):
the press at t=0 reaches the cooked grid exactly at the t=5 call (bit 1
of row 0 set), and after the t=40 call clears quiescence, the release
at t=57 reaches the cooked grid exactly at the t=62 call. -/
theorem oneKeyShort1_scenario :
    oneKeyShort1_t0.1 = [0, 0]
    ∧ oneKeyShort1_t5.1 = [2, 0]
    ∧ oneKeyShort1_t40.1 = [2, 0]
    ∧ oneKeyShort1_t57.1 = [2, 0]
    ∧ oneKeyShort1_t62.1 = [0, 0] := by decide

/-! ### Behaviour when the raw grid does not change -/

theorem stepCols_fst_delta_zero (down up quiesce elapsed : Nat) (amb : Nat → Bool)
    (raw_row : Nat) :
    ∀ (ps : List key_state_t) (col cooked_row : Nat),
      (stepCols down up quiesce elapsed amb 0 raw_row col cooked_row ps).1 =
        cooked_row := by
  intro ps
  induction ps with
  | nil =>
      intro col cooked_row
      simp [stepCols]
  | cons p rest ih =>
      intro col cooked_row
      by_cases h : amb col
      · simp [stepCols, h, ih]
      · simp [stepCols, h, ih, Nat.zero_testBit, stepCell_noflip_of_delta_false]

theorem stepRows_fst_raw_raw (down up quiesce elapsed : Nat) (mrow dcol : List Nat) :
    ∀ (raws : List Nat) (pss : List (List key_state_t)) (r0 : Nat),
      pss.length = raws.length →
      (stepRows down up quiesce elapsed mrow dcol r0 raws raws pss).1 = raws := by
  intro raws
  induction raws with
  | nil =>
      intro pss r0 _
      simp [stepRows]
  | cons raw_row raws ih =>
      intro pss r0 hl
      match pss with
      | ps :: pss =>
        have hl' : pss.length = raws.length := by simpa using hl
        simp only [stepRows, Nat.xor_self]
        rw [stepCols_fst_delta_zero, ih pss (r0 + 1) hl']

theorem stepRows_snd_length (down up quiesce elapsed : Nat) (mrow dcol : List Nat) :
    ∀ (raws cookeds : List Nat) (pss : List (List key_state_t)) (r0 : Nat),
      cookeds.length = raws.length → pss.length = raws.length →
      (stepRows down up quiesce elapsed mrow dcol r0 raws cookeds pss).2.length =
        raws.length := by
  intro raws
  induction raws with
  | nil =>
      intro cookeds pss r0 _ _
      simp [stepRows]
  | cons raw_row raws ih =>
      intro cookeds pss r0 hcl hpl
      match cookeds, pss with
      | cooked_row :: cookeds, ps :: pss =>
        have hcl' : cookeds.length = raws.length := by simpa using hcl
        have hpl' : pss.length = raws.length := by simpa using hpl
        simp only [stepRows, List.length_cons]
        rw [ih cookeds pss (r0 + 1) hcl' hpl']

/-- C5 counterexample setup: one row of four columns, freshly
initialized, cell (0,1) pressed; the press is observed by a call with
changed = true (elapsed 1, the bootstrap value). -/
def pendingPress_call1 : List Nat × DebounceState :=
  debounce DEBOUNCE_DOWN DEBOUNCE_UP DEBOUNCE_QUIESCE 4 1
    (debounce_init 1 4 (List.replicate 4 0)) [2] [0] true

/-- C5 counterexample second call: five time units later, the raw grid
is unchanged and changed = false. -/
def pendingPress_call2 : List Nat × DebounceState :=
  debounce DEBOUNCE_DOWN DEBOUNCE_UP DEBOUNCE_QUIESCE 4 5
    pendingPress_call1.2 [2] pendingPress_call1.1 false

/-- C5 counterexample: with the raw grid unchanged between the calls
and changed = false, the cooked grid still changes (the pending press
gets accepted), even though the ghost tables are indeed untouched. -/
theorem debounce_unchanged_raw_cooked_changes :
    pendingPress_call1.1 = [0]
    ∧ pendingPress_call2.1 = [2]
    ∧ pendingPress_call2.1 ≠ pendingPress_call1.1
    ∧ pendingPress_call2.2.multiple_in_row = pendingPress_call1.2.multiple_in_row
    ∧ pendingPress_call2.2.down_in_col = pendingPress_call1.2.down_in_col := by
  decide

/-- C5 amended: if the raw grid is unchanged AND already agrees with
the cooked grid, then arbitrarily many debounce calls with
changed = false never change the cooked grid, and the ghost tables are
never recomputed (they stay exactly as stored). -/
theorem debounce_raw_eq_cooked_stable (down up quiesce cols : Nat)
    (raw : List Nat) (es : List Nat) (st : DebounceState)
    (hks : st.key_states.length = raw.length) :
    (debounceIter down up quiesce cols raw es raw st).1 = raw
    ∧ (debounceIter down up quiesce cols raw es raw st).2.multiple_in_row =
        st.multiple_in_row
    ∧ (debounceIter down up quiesce cols raw es raw st).2.down_in_col =
        st.down_in_col := by
  induction es generalizing st with
  | nil => exact ⟨rfl, rfl, rfl⟩
  | cons e es ih =>
      have hfst : (debounce down up quiesce cols e st raw raw false).1 = raw := by
        simp only [debounce, Bool.false_eq_true, if_false]
        exact stepRows_fst_raw_raw down up quiesce e st.multiple_in_row
          st.down_in_col raw st.key_states 0 hks
      have hkl2 : (debounce down up quiesce cols e st raw raw
          false).2.key_states.length = raw.length := by
        simp only [debounce, Bool.false_eq_true, if_false]
        exact stepRows_snd_length down up quiesce e st.multiple_in_row
          st.down_in_col raw raw st.key_states 0 rfl hks
      have hmr : (debounce down up quiesce cols e st raw raw
          false).2.multiple_in_row = st.multiple_in_row := by
        simp [debounce]
      have hdc : (debounce down up quiesce cols e st raw raw
          false).2.down_in_col = st.down_in_col := by
        simp [debounce]
      obtain ⟨h1, h2, h3⟩ :=
        ih (debounce down up quiesce cols e st raw raw false).2 hkl2
      refine ⟨?_, ?_, ?_⟩
      · simp only [debounceIter]
        rw [hfst]
        exact h1
      · simp only [debounceIter]
        rw [hfst]
        exact h2.trans hmr
      · simp only [debounceIter]
        rw [hfst]
        exact h3.trans hdc

/-- C5 amended witness: one row, stale nonzero static down_in_col, two
further calls. -/
theorem debounce_raw_eq_cooked_stable_witness :
    (debounce_init 1 4 [9, 9, 9, 9]).key_states.length = ([2] : List Nat).length
    ∧ ((debounceIter 5 5 30 4 [2] [5, 7] [2] (debounce_init 1 4 [9, 9, 9, 9])).1 = [2]
      ∧ (debounceIter 5 5 30 4 [2] [5, 7] [2]
          (debounce_init 1 4 [9, 9, 9, 9])).2.multiple_in_row =
          (debounce_init 1 4 [9, 9, 9, 9]).multiple_in_row
      ∧ (debounceIter 5 5 30 4 [2] [5, 7] [2]
          (debounce_init 1 4 [9, 9, 9, 9])).2.down_in_col =
          (debounce_init 1 4 [9, 9, 9, 9]).down_in_col) :=
  ⟨by decide,
    debounce_raw_eq_cooked_stable 5 5 30 4 [2] [5, 7]
      (debounce_init 1 4 [9, 9, 9, 9]) (by decide)⟩

/-- C1: every non-ambiguous in-range cell processed by debounce follows
the three-state machine exactly: WAITING arms a press or release with
the corresponding threshold when the raw and cooked bits differ;
DEBOUNCING aborts to WAITING when they agree again, counts down while
remaining > elapsed, and otherwise accepts (cooked bit becomes the raw
bit) and quiesces; QUIESCING ignores the raw bit, counts down while
remaining > elapsed, and otherwise returns to WAITING. -/
theorem debounce_nonghost_cell_follows_machine
    (down up quiesce cols elapsed : Nat) (st : DebounceState)
    (raw cooked : List Nat) (changed : Bool) (r c : Nat)
    (p p' : key_state_t) (cb rb cb' : Bool)
    (hd : down ≤ 255) (hu : up ≤ 255) (hq : quiesce ≤ 255)
    (hcl : cooked.length = raw.length) (hkl : st.key_states.length = raw.length)
    (hr : r < raw.length) (hc : c < (st.key_states.getD r []).length)
    (hamb : multiple_in_row_and_col
        (if changed then ghost_compute raw cols
         else (st.multiple_in_row, st.down_in_col)).1
        (if changed then ghost_compute raw cols
         else (st.multiple_in_row, st.down_in_col)).2 r c = false)
    (hp : p = (st.key_states.getD r []).getD c default)
    (hcb : cb = (cooked.getD r 0).testBit c)
    (hrb : rb = (raw.getD r 0).testBit c)
    (hp2 : p' = ((debounce down up quiesce cols elapsed st raw cooked
        changed).2.key_states.getD r []).getD c default)
    (hcb2 : cb' = ((debounce down up quiesce cols elapsed st raw cooked
        changed).1.getD r 0).testBit c) :
    followsMachine down up quiesce elapsed p p' cb rb cb' := by
  have hcell := debounce_cell down up quiesce cols elapsed st raw cooked
    changed r c hcl hkl hr hc
  simp only [hamb, Bool.false_eq_true, if_false] at hcell
  subst hp hcb hrb hp2 hcb2
  have hA := congrArg Prod.fst hcell
  have hB := congrArg Prod.snd hcell
  simp only at hA hB
  rw [hA, hB, Nat.testBit_xor]
  exact stepCell_cases down up quiesce elapsed _ _ _ hd hu hq

/-- Concrete single-row state for the C1 witness: column 1 is mid
debounce with 5 units to go, no ghost candidates. -/
def demo_waiting_debouncing : DebounceState :=
  { multiple_in_row := [0],
    down_in_col := [0, 0],
    key_states := [[{ state := Phase.WAITING, remaining := 0 },
                    { state := Phase.DEBOUNCING, remaining := 5 }]] }

/-- C1 witness: the theorem applied to the accept step of the concrete
cell (0,1) of demo_waiting_debouncing. -/
theorem debounce_nonghost_cell_follows_machine_witness :
    (5 : Nat) ≤ 255 ∧ (5 : Nat) ≤ 255 ∧ (30 : Nat) ≤ 255
    ∧ ([0] : List Nat).length = ([2] : List Nat).length
    ∧ demo_waiting_debouncing.key_states.length = ([2] : List Nat).length
    ∧ 0 < ([2] : List Nat).length
    ∧ 1 < ((demo_waiting_debouncing.key_states.getD 0 []).length)
    ∧ multiple_in_row_and_col
        (if false then ghost_compute [2] 2
         else (demo_waiting_debouncing.multiple_in_row,
               demo_waiting_debouncing.down_in_col)).1
        (if false then ghost_compute [2] 2
         else (demo_waiting_debouncing.multiple_in_row,
               demo_waiting_debouncing.down_in_col)).2 0 1 = false
    ∧ ({ state := Phase.DEBOUNCING, remaining := 5 } : key_state_t) =
        (demo_waiting_debouncing.key_states.getD 0 []).getD 1 default
    ∧ (false : Bool) = (([0] : List Nat).getD 0 0).testBit 1
    ∧ (true : Bool) = (([2] : List Nat).getD 0 0).testBit 1
    ∧ ({ state := Phase.QUIESCING, remaining := 30 } : key_state_t) =
        ((debounce 5 5 30 2 5 demo_waiting_debouncing [2] [0]
          false).2.key_states.getD 0 []).getD 1 default
    ∧ (true : Bool) = ((debounce 5 5 30 2 5 demo_waiting_debouncing [2] [0]
          false).1.getD 0 0).testBit 1
    ∧ followsMachine 5 5 30 5 { state := Phase.DEBOUNCING, remaining := 5 }
        { state := Phase.QUIESCING, remaining := 30 } false true true :=
  ⟨by decide, by decide, by decide, by decide, by decide, by decide, by decide,
   by decide, by decide, by decide, by decide, by decide, by decide,
   debounce_nonghost_cell_follows_machine 5 5 30 2 5 demo_waiting_debouncing
     [2] [0] false 0 1
     { state := Phase.DEBOUNCING, remaining := 5 }
     { state := Phase.QUIESCING, remaining := 30 } false true true
     (by decide) (by decide) (by decide) (by decide) (by decide) (by decide)
     (by decide) (by decide) (by decide) (by decide) (by decide) (by decide)
     (by decide)⟩

/-- C3: a cell that is ambiguous this cycle is skipped whole: its phase,
its remaining counter and its cooked bit come out of the sweep exactly
as they went in (the timer is frozen, not decremented). -/
theorem debounce_ambiguous_cell_frozen
    (down up quiesce cols elapsed : Nat) (st : DebounceState)
    (raw cooked : List Nat) (changed : Bool) (r c : Nat)
    (hcl : cooked.length = raw.length) (hkl : st.key_states.length = raw.length)
    (hr : r < raw.length) (hc : c < (st.key_states.getD r []).length)
    (hamb : multiple_in_row_and_col
        (if changed then ghost_compute raw cols
         else (st.multiple_in_row, st.down_in_col)).1
        (if changed then ghost_compute raw cols
         else (st.multiple_in_row, st.down_in_col)).2 r c = true) :
    (((debounce down up quiesce cols elapsed st raw cooked
        changed).2.key_states.getD r []).getD c default).state =
      ((st.key_states.getD r []).getD c default).state
    ∧ (((debounce down up quiesce cols elapsed st raw cooked
        changed).2.key_states.getD r []).getD c default).remaining =
      ((st.key_states.getD r []).getD c default).remaining
    ∧ ((debounce down up quiesce cols elapsed st raw cooked
        changed).1.getD r 0).testBit c = (cooked.getD r 0).testBit c := by
  have hcell := debounce_cell down up quiesce cols elapsed st raw cooked
    changed r c hcl hkl hr hc
  simp only [hamb, if_true] at hcell
  have hA := congrArg Prod.fst hcell
  have hB := congrArg Prod.snd hcell
  simp only at hA hB
  exact ⟨congrArg key_state_t.state hA, congrArg key_state_t.remaining hA, hB⟩

/-- Concrete two-row state for the C3 witness: cell (0,0) is mid
debounce with 3 units left when the grid becomes ambiguous. -/
def demo_ghosted : DebounceState :=
  { multiple_in_row := [0, 0],
    down_in_col := [0, 0],
    key_states := [[{ state := Phase.DEBOUNCING, remaining := 3 },
                    { state := Phase.WAITING, remaining := 0 }],
                   [{ state := Phase.WAITING, remaining := 0 },
                    { state := Phase.WAITING, remaining := 0 }]] }

/-- C3 witness: raw rows 3 and 1 make cell (0,0) ambiguous
(multiple keys in row 0, column 0 down twice); its state, counter and
cooked bit survive a changed = true sweep untouched. -/
theorem debounce_ambiguous_cell_frozen_witness :
    ([1, 0] : List Nat).length = ([3, 1] : List Nat).length
    ∧ demo_ghosted.key_states.length = ([3, 1] : List Nat).length
    ∧ 0 < ([3, 1] : List Nat).length
    ∧ 0 < ((demo_ghosted.key_states.getD 0 []).length)
    ∧ multiple_in_row_and_col
        (if true then ghost_compute [3, 1] 2
         else (demo_ghosted.multiple_in_row, demo_ghosted.down_in_col)).1
        (if true then ghost_compute [3, 1] 2
         else (demo_ghosted.multiple_in_row, demo_ghosted.down_in_col)).2 0 0 = true
    ∧ ((((debounce 5 5 30 2 5 demo_ghosted [3, 1] [1, 0]
          true).2.key_states.getD 0 []).getD 0 default).state =
        ((demo_ghosted.key_states.getD 0 []).getD 0 default).state
      ∧ (((debounce 5 5 30 2 5 demo_ghosted [3, 1] [1, 0]
          true).2.key_states.getD 0 []).getD 0 default).remaining =
        ((demo_ghosted.key_states.getD 0 []).getD 0 default).remaining
      ∧ ((debounce 5 5 30 2 5 demo_ghosted [3, 1] [1, 0]
          true).1.getD 0 0).testBit 0 = (([1, 0] : List Nat).getD 0 0).testBit 0) :=
  ⟨by decide, by decide, by decide, by decide, by decide,
    debounce_ambiguous_cell_frozen 5 5 30 2 5 demo_ghosted [3, 1] [1, 0] true 0 0
      (by decide) (by decide) (by decide) (by decide) (by decide)⟩

/-- C10: the cooked bit of an in-range cell changes in a sweep exactly
when the cell is not ambiguous, is DEBOUNCING, its raw and cooked bits
differ, and remaining has run out (remaining at most elapsed); and at
that moment the cooked bit becomes the raw bit while the cell moves to
QUIESCING with remaining = the quiesce duration.  In every other case
the cooked bit is untouched. -/
theorem debounce_cooked_bit_change_iff
    (down up quiesce cols elapsed : Nat) (st : DebounceState)
    (raw cooked : List Nat) (changed : Bool) (r c : Nat)
    (g : Bool) (p p' : key_state_t) (cb rb cb' : Bool)
    (hq : quiesce ≤ 255)
    (hcl : cooked.length = raw.length) (hkl : st.key_states.length = raw.length)
    (hr : r < raw.length) (hc : c < (st.key_states.getD r []).length)
    (hg : g = multiple_in_row_and_col
        (if changed then ghost_compute raw cols
         else (st.multiple_in_row, st.down_in_col)).1
        (if changed then ghost_compute raw cols
         else (st.multiple_in_row, st.down_in_col)).2 r c)
    (hp : p = (st.key_states.getD r []).getD c default)
    (hcb : cb = (cooked.getD r 0).testBit c)
    (hrb : rb = (raw.getD r 0).testBit c)
    (hp2 : p' = ((debounce down up quiesce cols elapsed st raw cooked
        changed).2.key_states.getD r []).getD c default)
    (hcb2 : cb' = ((debounce down up quiesce cols elapsed st raw cooked
        changed).1.getD r 0).testBit c) :
    (cb' ≠ cb ↔
      (g = false ∧ p.state = Phase.DEBOUNCING ∧ rb ≠ cb ∧ p.remaining ≤ elapsed))
    ∧ (cb' ≠ cb →
        cb' = rb ∧ p' = { state := Phase.QUIESCING, remaining := quiesce }) := by
  have hcell := debounce_cell down up quiesce cols elapsed st raw cooked
    changed r c hcl hkl hr hc
  subst hp hcb hrb hp2 hcb2
  have hx : ∀ b f : Bool, (b.xor f ≠ b) ↔ f = true := by decide
  by_cases hgv : multiple_in_row_and_col
      (if changed then ghost_compute raw cols
       else (st.multiple_in_row, st.down_in_col)).1
      (if changed then ghost_compute raw cols
       else (st.multiple_in_row, st.down_in_col)).2 r c
  · simp only [hgv, if_true] at hcell
    have hB := congrArg Prod.snd hcell
    simp only at hB
    rw [hB]
    have hgt : g = true := by rw [hg, hgv]
    constructor
    · constructor
      · intro h
        exact absurd rfl h
      · intro h
        rw [hgt] at h
        exact absurd h.1 (by decide)
    · intro h
      exact absurd rfl h
  · have hgf : g = false := by
      rw [hg]
      exact Bool.not_eq_true _ |>.mp hgv
    simp only [hgv, Bool.false_eq_true, if_false] at hcell
    have hA := congrArg Prod.fst hcell
    have hB := congrArg Prod.snd hcell
    simp only at hA hB
    rw [hA, hB, Nat.testBit_xor]
    obtain ⟨hiff, himp⟩ := stepCell_flip down up quiesce elapsed
      ((cooked.getD r 0).testBit c) ((raw.getD r 0).testBit c)
      ((st.key_states.getD r []).getD c default)
    constructor
    · rw [hx, hiff, hgf]
      simp
    · intro hne
      have hflip := (hx _ _).mp hne
      obtain ⟨hcbr, hks⟩ := himp hflip
      refine ⟨hcbr, ?_⟩
      rw [hks]
      have : quiesce % 256 = quiesce := Nat.mod_eq_of_lt (by omega)
      rw [this]

/-- C10 witness: the theorem applied to the accepting cell (0,1) of
demo_waiting_debouncing and, inside the same instance, checked against
the computed flip. -/
theorem debounce_cooked_bit_change_iff_witness :
    (30 : Nat) ≤ 255
    ∧ ([0] : List Nat).length = ([2] : List Nat).length
    ∧ demo_waiting_debouncing.key_states.length = ([2] : List Nat).length
    ∧ 0 < ([2] : List Nat).length
    ∧ 1 < ((demo_waiting_debouncing.key_states.getD 0 []).length)
    ∧ (false : Bool) = multiple_in_row_and_col
        (if false then ghost_compute [2] 2
         else (demo_waiting_debouncing.multiple_in_row,
               demo_waiting_debouncing.down_in_col)).1
        (if false then ghost_compute [2] 2
         else (demo_waiting_debouncing.multiple_in_row,
               demo_waiting_debouncing.down_in_col)).2 0 1
    ∧ (((true : Bool) ≠ false ↔
        ((false : Bool) = false
          ∧ ({ state := Phase.DEBOUNCING, remaining := 5 } : key_state_t).state =
              Phase.DEBOUNCING
          ∧ (true : Bool) ≠ false
          ∧ ({ state := Phase.DEBOUNCING, remaining := 5 } : key_state_t).remaining ≤ 5))
      ∧ ((true : Bool) ≠ false →
          (true : Bool) = true
          ∧ ({ state := Phase.QUIESCING, remaining := 30 } : key_state_t) =
              { state := Phase.QUIESCING, remaining := 30 })) :=
  ⟨by decide, by decide, by decide, by decide, by decide, by decide,
    debounce_cooked_bit_change_iff 5 5 30 2 5 demo_waiting_debouncing
      [2] [0] false 0 1 false
      { state := Phase.DEBOUNCING, remaining := 5 }
      { state := Phase.QUIESCING, remaining := 30 } false true true
      (by decide) (by decide) (by decide) (by decide) (by decide) (by decide)
      (by decide) (by decide) (by decide) (by decide) (by decide)⟩

end Fancy
